import Mathlib

/-!
Verification of the dispatch-and-status-tracking core of
`src/apis/kafka/producer.py` (carefree-creator).

The shallow embedding models:
* the shared key-value Store (redis): per-uid Task Records plus the single
  Pending Queue value stored under `KAFKA_PENDING_QUEUE`;
* `push` (the `/push/{topic}` handler), with the broker publish outcome made
  an explicit boolean parameter and the externally visible effects returned
  as an ordered trace;
* `fetch_redis`, `get_pending_queue`, and `get_status` (the `/status/{uid}`
  handler), whose inline prune loop (collect indices of finished uids, pop
  them in reverse index order, rewrite only when something was popped) is
  embedded as written and related to `List.filter` by lemma.

The opaque payloads (`data` of a Task Record, serialized `params`) are
modelled as `Option String` / `String`.
-/

/-- The four task statuses of `class Status(str, Enum)` in the source. -/
inductive Status
  | pending
  | working
  | finished
  | exception
  deriving DecidableEq, Repr

/-- A Task Record as stored under key `uid`: `{status, data}`
(`class StatusData(NamedTuple)` in the source). -/
structure StatusData where
  status : Status
  data : Option String
  deriving DecidableEq, Repr

/-- The state of the redis Store: the Task Records (key `uid` to record) and
the Pending Queue value under `KAFKA_PENDING_QUEUE` (`none` when the key is
absent). The queue key lives in the same keyspace in the source; uid keys are
random hashes, so the two key families are modelled as disjoint fields. -/
structure RedisState where
  records : String → Option StatusData
  queue : Option (List String)

/-- `get_pending_queue()`: the stored list, or `[]` when the key is absent. -/
def get_pending_queue (s : RedisState) : List String :=
  s.queue.getD []

/-- `fetch_redis(uid)`: the Task Record for `uid`, defaulting to
`{status: pending, data: None}` when the key is absent. -/
def fetch_redis (s : RedisState) (uid : String) : StatusData :=
  (s.records uid).getD ⟨Status.pending, none⟩

/-- The request body of `/push/{topic}` (`class ProducerModel`): the task name
and its (opaque, serialized) params. -/
structure ProducerModel where
  task : String
  params : String
  deriving DecidableEq, Repr

/-- A message published to the broker: topic plus the serialized
`{uid, task, params}` payload of `kafka_producer.send`. -/
structure KafkaMsg where
  topic : String
  uid : String
  task : String
  params : String
  deriving DecidableEq, Repr

/-- An externally visible side effect of a handler, in execution order:
a broker publish, a write of the Pending Queue value, or a write of a
Task Record. -/
inductive Effect
  | publish (msg : KafkaMsg)
  | set_queue (q : List String)
  | set_record (uid : String) (r : StatusData)
  deriving DecidableEq, Repr

/-- `push(data, topic)`: when the broker publish succeeds (`publish_ok`),
send `{uid, task, params}` to `topic`, append `uid` to the Pending Queue,
write the initial Task Record `{status: pending, data: None}`, and return the
uid; when the publish raises, the handler aborts before any Store write, so
no uid is returned, the state is unchanged and no effect happened. The fresh
`random_hash()` value is the explicit `uid` argument. -/
def push (publish_ok : Bool) (data : ProducerModel) (topic : String)
    (uid : String) (s : RedisState) :
    Option String × RedisState × List Effect :=
  if publish_ok then
    let msg : KafkaMsg := ⟨topic, uid, data.task, data.params⟩
    let queue' := get_pending_queue s ++ [uid]
    let rec' : StatusData := ⟨Status.pending, none⟩
    let s' : RedisState :=
      { records := fun k => if k = uid then some rec' else s.records k,
        queue := some queue' }
    (some uid, s', [Effect.publish msg, Effect.set_queue queue',
                    Effect.set_record uid rec'])
  else
    (none, s, [])

/-- Whether `fetch_redis(u).status == "finished"`, the prune predicate of the
loop in `get_status`. -/
def is_finished (s : RedisState) (u : String) : Bool :=
  (fetch_redis s u).status == Status.finished

/-- The `pop_indices` list of `get_status`, collected by enumerating the
queue from position `i`: the indices whose uid's Task Record is finished. -/
def popIndicesFrom (s : RedisState) : Nat → List String → List Nat
  | _, [] => []
  | i, u :: rest =>
    if is_finished s u then i :: popIndicesFrom s (i + 1) rest
    else popIndicesFrom s (i + 1) rest

/-- `pop_indices` as computed by `get_status`: enumeration starts at 0. -/
def pop_indices (s : RedisState) (queue : List String) : List Nat :=
  popIndicesFrom s 0 queue

/-- `for idx in idxs: queue.pop(idx)` — remove, in order, the element at each
index of `idxs`. -/
def eraseIdxs (queue : List String) (idxs : List Nat) : List String :=
  idxs.foldl (fun acc i => acc.eraseIdx i) queue

/-- The prune-and-rewrite step inlined in `get_status` (its queue-handling
lines): read the queue, pop every index of `pop_indices` in reverse order,
and write the popped list back iff `pop_indices` is non-empty. Returns the
pruned list and the resulting Store state. -/
def prune_and_rewrite (s : RedisState) : List String × RedisState :=
  let queue := get_pending_queue s
  let popIdxs := pop_indices s queue
  let queue' := eraseIdxs queue popIdxs.reverse
  if popIdxs.isEmpty then (queue', s)
  else (queue', { s with queue := some queue' })

/-- Python's `list.index` wrapped in `try`/`except`: the index of the first
occurrence of `x` in `l`, or `none` when absent. -/
def list_index (l : List String) (x : String) : Option Nat :=
  match l with
  | [] => none
  | a :: rest => if a = x then some 0 else (list_index rest x).map (· + 1)

/-- The response of `/status/{uid}` (`class StatusModel`): status, the
`pending` lag, and the data payload. `pending` is an integer; the source's
`len(queue) - 1` fallback can be `-1`. -/
structure StatusModel where
  status : Status
  pending : Int
  data : Option String
  deriving DecidableEq, Repr

/-- `get_status(uid)`: read the Task Record; if finished, lag 0 without
touching the queue; otherwise prune the queue and take the uid's index in
the pruned queue, falling back to `len(queue) - 1` when absent. Returns the
response together with the resulting Store state. -/
def get_status (s : RedisState) (uid : String) : StatusModel × RedisState :=
  let record := fetch_redis s uid
  if record.status = Status.finished then
    (⟨record.status, 0, record.data⟩, s)
  else
    let pruned := prune_and_rewrite s
    let lag : Int :=
      match list_index pruned.1 uid with
      | some i => (i : Int)
      | none => (pruned.1.length : Int) - 1
    (⟨record.status, lag, record.data⟩, pruned.2)

/-- The element-keeping predicate equivalent to the index-popping loop:
survivors are the uids whose Task Record is not finished. -/
def keepB (s : RedisState) (u : String) : Bool :=
  !is_finished s u

/-- Recognizer for broker-publish effects, used to state that a successful
push publishes exactly one message. -/
def isPublishEffect : Effect → Bool
  | Effect.publish _ => true
  | _ => false

/-- Example Store state: uids `a`, `c` finished, `b` working, `d` and all
others absent; Pending Queue `[a, b, c, d]`. -/
def exState : RedisState :=
  { records := fun u =>
      if u = "a" then some ⟨Status.finished, some "ra"⟩
      else if u = "b" then some ⟨Status.working, none⟩
      else if u = "c" then some ⟨Status.finished, none⟩
      else none,
    queue := some ["a", "b", "c", "d"] }

/-- Example Store state in which every queued uid is finished. -/
def exStateAllDone : RedisState :=
  { records := fun u =>
      if u = "a" then some ⟨Status.finished, none⟩ else none,
    queue := some ["a"] }

/-- Example Store state of the §8 scenario: `abc123` has been marked finished
with a result payload and is still in the Pending Queue. -/
def exStateFinishedQueued : RedisState :=
  { records := fun u =>
      if u = "abc123" then some ⟨Status.finished, some "url"⟩ else none,
    queue := some ["abc123"] }

/-! ### Bridging the index-popping loop to `List.filter` -/

theorem popIndicesFrom_succ (s : RedisState) (q : List String) :
    ∀ n, popIndicesFrom s (n + 1) q = (popIndicesFrom s n q).map (· + 1) := by
  induction q with
  | nil => intro n; rfl
  | cons u rest ih =>
    intro n
    simp only [popIndicesFrom]
    by_cases h : is_finished s u
    · simp [h, ih (n + 1)]
    · simp [h, ih (n + 1)]

theorem eraseIdxs_map_succ (u : String) :
    ∀ (l : List Nat) (q : List String),
      eraseIdxs (u :: q) (l.map (· + 1)) = u :: eraseIdxs q l := by
  intro l
  induction l with
  | nil => intro q; rfl
  | cons i l ih =>
    intro q
    show eraseIdxs ((u :: q).eraseIdx (i + 1)) (l.map (· + 1)) =
      u :: eraseIdxs (q.eraseIdx i) l
    exact ih (q.eraseIdx i)

theorem eraseIdxs_append (q : List String) (A B : List Nat) :
    eraseIdxs q (A ++ B) = eraseIdxs (eraseIdxs q A) B :=
  List.foldl_append _ _ _ _

/-- The prune loop of `get_status` — pop the collected finished indices in
reverse order — computes exactly the order-preserving filter keeping the
not-finished uids. -/
theorem prune_loop_eq_filter (s : RedisState) :
    ∀ q : List String,
      eraseIdxs q (pop_indices s q).reverse = q.filter (keepB s) := by
  intro q
  induction q with
  | nil => rfl
  | cons u rest ih =>
    by_cases h : is_finished s u
    · have hpop : pop_indices s (u :: rest) =
          0 :: (pop_indices s rest).map (· + 1) := by
        simp only [pop_indices, popIndicesFrom]
        rw [if_pos h, popIndicesFrom_succ]
      rw [hpop, List.reverse_cons, ← List.map_reverse, eraseIdxs_append,
        eraseIdxs_map_succ]
      show (u :: eraseIdxs rest (pop_indices s rest).reverse).eraseIdx 0 = _
      rw [ih]
      simp [List.filter_cons, keepB, h]
    · have hpop : pop_indices s (u :: rest) =
          (pop_indices s rest).map (· + 1) := by
        simp only [pop_indices, popIndicesFrom]
        rw [if_neg h, popIndicesFrom_succ]
      rw [hpop, ← List.map_reverse, eraseIdxs_map_succ, ih]
      simp [List.filter_cons, keepB, h]

/-- `pop_indices` is empty exactly when no queued uid's record is finished. -/
theorem pop_indices_eq_nil_iff (s : RedisState) :
    ∀ q : List String,
      pop_indices s q = [] ↔ ∀ u ∈ q, ¬is_finished s u = true := by
  intro q
  induction q with
  | nil => simp [pop_indices, popIndicesFrom]
  | cons u rest ih =>
    simp only [pop_indices, popIndicesFrom]
    by_cases h : is_finished s u
    · rw [if_pos h]
      constructor
      · intro hc; exact absurd hc (List.cons_ne_nil _ _)
      · intro hall; exact absurd h (hall u (List.mem_cons_self u rest))
    · rw [if_neg h, popIndicesFrom_succ]
      rw [List.map_eq_nil_iff]
      rw [show popIndicesFrom s 0 rest = pop_indices s rest from rfl, ih]
      constructor
      · intro hall v hv
        rcases List.mem_cons.mp hv with he | hm
        · rw [he]; exact h
        · exact hall v hm
      · intro hall v hv
        exact hall v (List.mem_cons_of_mem u hv)

/-! ### Helper lemmas about `prune_and_rewrite`, `list_index`, `get_status` -/

theorem is_finished_congr (s t : RedisState) (h : t.records = s.records)
    (u : String) : is_finished t u = is_finished s u := by
  simp [is_finished, fetch_redis, h]

theorem prune_fst (s : RedisState) :
    (prune_and_rewrite s).1 = (get_pending_queue s).filter (keepB s) := by
  by_cases h : (pop_indices s (get_pending_queue s)).isEmpty <;>
    simp only [prune_and_rewrite, h, Bool.false_eq_true, if_true, if_false,
      Bool.not_eq_true] <;>
    exact prune_loop_eq_filter s _

theorem prune_records (s : RedisState) :
    (prune_and_rewrite s).2.records = s.records := by
  by_cases h : (pop_indices s (get_pending_queue s)).isEmpty <;>
    simp [prune_and_rewrite, h]

theorem prune_snd_of_empty (s : RedisState)
    (h : pop_indices s (get_pending_queue s) = []) :
    (prune_and_rewrite s).2 = s := by
  simp [prune_and_rewrite, h]

theorem prune_snd_of_nonempty (s : RedisState)
    (h : pop_indices s (get_pending_queue s) ≠ []) :
    (prune_and_rewrite s).2 = { s with queue := some (prune_and_rewrite s).1 } := by
  have h' : (pop_indices s (get_pending_queue s)).isEmpty = false := by
    rw [Bool.eq_false_iff]
    intro hc
    exact h (List.isEmpty_iff.mp hc)
  simp [prune_and_rewrite, h']

theorem prune_snd_queue (s : RedisState) :
    get_pending_queue (prune_and_rewrite s).2 = (prune_and_rewrite s).1 := by
  by_cases h : pop_indices s (get_pending_queue s) = []
  · rw [prune_snd_of_empty s h]
    have : (prune_and_rewrite s).1 = (get_pending_queue s).filter (keepB s) :=
      prune_fst s
    rw [this, List.filter_eq_self.mpr]
    intro u hu
    have := (pop_indices_eq_nil_iff s (get_pending_queue s)).mp h u hu
    simp [keepB, this]
  · rw [prune_snd_of_nonempty s h]
    rfl

theorem list_index_eq_none_of_not_mem (l : List String) (x : String)
    (h : x ∉ l) : list_index l x = none := by
  induction l with
  | nil => rfl
  | cons a rest ih =>
    have ha : ¬a = x := fun he => h (he ▸ List.mem_cons_self a rest)
    have hr : x ∉ rest := fun hm => h (List.mem_cons_of_mem a hm)
    simp [list_index, ha, ih hr]

/-- In a filtered list, the first index of a kept element equals the number of
kept elements strictly before its first occurrence in the original list. -/
theorem list_index_filter (p : String → Bool) (x : String) (hx : p x = true) :
    ∀ q : List String, x ∈ q →
      list_index (q.filter p) x =
        some ((q.takeWhile (fun u => !(u == x))).filter p).length := by
  intro q
  induction q with
  | nil => intro h; cases h
  | cons a rest ih =>
    intro hmem
    by_cases hax : a = x
    · subst hax
      simp [List.takeWhile_cons, List.filter_cons, hx, list_index]
    · have hm' : x ∈ rest := by
        rcases List.mem_cons.mp hmem with he | hm
        · exact absurd he.symm hax
        · exact hm
      by_cases hpa : p a = true
      · simp [List.filter_cons, hpa, List.takeWhile_cons, hax, list_index,
          ih hm']
      · have hpa' : p a = false := by
          rw [Bool.eq_false_iff]; exact hpa
        simp [List.filter_cons, hpa', List.takeWhile_cons, hax, ih hm']

/-! ### Claim theorems -/

/-- C2: if the broker publish fails, `push` fails with no uid returned and no
state persisted: the Store is unchanged (no Pending Queue entry, no Task
Record) and no effect is emitted. -/
theorem push_publish_failure_no_state (data : ProducerModel) (topic uid : String)
    (s : RedisState) :
    push false data topic uid s = (none, s, []) := rfl

/-- C4: for a uid whose Task Record status is finished, `get_status` returns
lag 0 regardless of the queue contents, leaves the Store unchanged, and its
response does not depend on the stored queue value at all. -/
theorem finished_uid_lag_zero (s : RedisState) (uid : String)
    (q : Option (List String))
    (h : (fetch_redis s uid).status = Status.finished) :
    (get_status s uid).1.pending = 0 ∧
    (get_status s uid).2 = s ∧
    (get_status { records := s.records, queue := q } uid).1 =
      (get_status s uid).1 := by
  have h' : (fetch_redis { records := s.records, queue := q } uid).status =
      Status.finished := h
  simp only [get_status]
  rw [if_pos h, if_pos h']
  exact ⟨rfl, rfl, rfl⟩

theorem finished_uid_lag_zero_witness :
    (get_status exState "a").1.pending = 0 ∧
    (get_status exState "a").2 = exState ∧
    (get_status { records := exState.records, queue := some [] } "a").1 =
      (get_status exState "a").1 :=
  finished_uid_lag_zero exState "a" (some []) (by decide)

/-- C5: for a uid whose Task Record is not finished and which is absent from
the pruned Pending Queue, `get_status` does not fail: its lag falls back to
the length of the pruned queue minus one. -/
theorem missing_uid_fallback_lag (s : RedisState) (uid : String)
    (h : (fetch_redis s uid).status ≠ Status.finished)
    (hm : uid ∉ (prune_and_rewrite s).1) :
    (get_status s uid).1.pending = ((prune_and_rewrite s).1.length : Int) - 1 := by
  simp only [get_status]
  rw [if_neg h, list_index_eq_none_of_not_mem _ _ hm]

theorem missing_uid_fallback_lag_witness :
    (get_status exState "zz").1.pending =
      ((prune_and_rewrite exState).1.length : Int) - 1 :=
  missing_uid_fallback_lag exState "zz" (by decide) (by decide)

/-- C6: a uid with no Task Record in the Store reads as
`{status: pending, data: null}`; an unknown uid is not an error. -/
theorem unknown_uid_reads_pending (s : RedisState) (uid : String)
    (h : s.records uid = none) :
    (get_status s uid).1.status = Status.pending ∧
    (get_status s uid).1.data = none := by
  have hf : fetch_redis s uid = ⟨Status.pending, none⟩ := by
    simp [fetch_redis, h]
  simp [get_status, hf]

theorem unknown_uid_reads_pending_witness :
    (get_status exState "never-submitted").1.status = Status.pending ∧
    (get_status exState "never-submitted").1.data = none :=
  unknown_uid_reads_pending exState "never-submitted" (by decide)

/-- C10: the public `pending` field can be negative: for a uid whose record is
not finished, absent from the Pending Queue, with an empty pruned queue,
`get_status` returns `pending = -1`. -/
theorem empty_pruned_queue_negative_pending (s : RedisState) (uid : String)
    (h : (fetch_redis s uid).status ≠ Status.finished)
    (_habs : uid ∉ get_pending_queue s)
    (hq : (prune_and_rewrite s).1 = []) :
    (get_status s uid).1.pending = -1 := by
  simp only [get_status]
  rw [if_neg h, hq]
  rfl

theorem empty_pruned_queue_negative_pending_witness :
    (get_status exStateAllDone "zz").1.pending = -1 :=
  empty_pruned_queue_negative_pending exStateAllDone "zz"
    (by decide) (by decide) (by decide)

/-- C3: the prune step removes exactly the uids whose Task Record is finished
(the returned list is the order-preserving filter of the stored queue, a
sublist of it), and it writes the filtered list back to the Store if and only
if at least one element was removed; otherwise the Store is untouched. -/
theorem prune_and_rewrite_correct (s : RedisState) :
    (prune_and_rewrite s).1 = (get_pending_queue s).filter (keepB s) ∧
    List.Sublist (prune_and_rewrite s).1 (get_pending_queue s) ∧
    (prune_and_rewrite s).2 =
      (if (prune_and_rewrite s).1 = get_pending_queue s then s
       else { s with queue := some ((prune_and_rewrite s).1) }) := by
  refine ⟨prune_fst s, ?_, ?_⟩
  · rw [prune_fst]
    exact List.filter_sublist _
  · by_cases h : (prune_and_rewrite s).1 = get_pending_queue s
    · rw [if_pos h]
      apply prune_snd_of_empty
      apply (pop_indices_eq_nil_iff s _).mpr
      intro u hu
      rw [prune_fst] at h
      have hk := List.filter_eq_self.mp h u hu
      simp [keepB] at hk
      simp [hk]
    · rw [if_neg h]
      apply prune_snd_of_nonempty
      intro hc
      apply h
      rw [prune_fst, List.filter_eq_self]
      intro u hu
      have := (pop_indices_eq_nil_iff s _).mp hc u hu
      simp [keepB, this]

/-- C7: a successful `push` publishes exactly one broker message
`{uid, task, params}` to the caller-named topic, then writes the queue with
the uid appended, then writes the initial pending Task Record — in this
order — returns the uid, and an immediate `get_status` of that uid returns
status pending with null data. -/
theorem push_success_effects (data : ProducerModel) (topic uid : String)
    (s : RedisState) :
    (push true data topic uid s).1 = some uid ∧
    (push true data topic uid s).2.2 =
      [Effect.publish ⟨topic, uid, data.task, data.params⟩,
       Effect.set_queue (get_pending_queue s ++ [uid]),
       Effect.set_record uid ⟨Status.pending, none⟩] ∧
    (push true data topic uid s).2.2.filter isPublishEffect =
      [Effect.publish ⟨topic, uid, data.task, data.params⟩] ∧
    get_pending_queue (push true data topic uid s).2.1 =
      get_pending_queue s ++ [uid] ∧
    (push true data topic uid s).2.1.records uid =
      some ⟨Status.pending, none⟩ ∧
    (get_status (push true data topic uid s).2.1 uid).1.status =
      Status.pending ∧
    (get_status (push true data topic uid s).2.1 uid).1.data = none := by
  have hrec : (push true data topic uid s).2.1.records uid =
      some ⟨Status.pending, none⟩ := by
    simp [push]
  have hf : fetch_redis (push true data topic uid s).2.1 uid =
      ⟨Status.pending, none⟩ := by
    simp [fetch_redis, hrec]
  refine ⟨rfl, rfl, rfl, rfl, hrec, ?_, ?_⟩ <;> simp [get_status, hf]

/-- C8: pruning is idempotent: running the prune step on the state it just
produced yields the same queue again, collects no indices to remove, and
performs no Store write (the state is returned unchanged). -/
theorem prune_and_rewrite_idempotent (s : RedisState) :
    (prune_and_rewrite (prune_and_rewrite s).2).1 = (prune_and_rewrite s).1 ∧
    (prune_and_rewrite (prune_and_rewrite s).2).2 = (prune_and_rewrite s).2 ∧
    pop_indices (prune_and_rewrite s).2
      (get_pending_queue (prune_and_rewrite s).2) = [] := by
  have hpop : pop_indices (prune_and_rewrite s).2
      (get_pending_queue (prune_and_rewrite s).2) = [] := by
    apply (pop_indices_eq_nil_iff _ _).mpr
    intro u hu
    rw [prune_snd_queue, prune_fst] at hu
    have hk := List.of_mem_filter hu
    simp [keepB] at hk
    rw [is_finished_congr s _ (prune_records s) u]
    simp [hk]
  refine ⟨?_, prune_snd_of_empty _ hpop, hpop⟩
  rw [prune_fst, prune_snd_queue]
  apply List.filter_eq_self.mpr
  intro u hu
  rw [prune_fst] at hu
  have hk := List.of_mem_filter hu
  simp [keepB] at hk ⊢
  rw [is_finished_congr s _ (prune_records s) u]
  exact hk

/-- C9: a queued uid whose Task Record is not finished is never removed by the
prune step inside `get_status`: it stays in the pruned queue (so the
not-found fallback is unreachable for it), and its lag is the number of
not-finished uids ahead of it in the stored queue. -/
theorem present_unfinished_uid_lag (s : RedisState) (uid : String)
    (h : (fetch_redis s uid).status ≠ Status.finished)
    (hm : uid ∈ get_pending_queue s) :
    uid ∈ (prune_and_rewrite s).1 ∧
    (list_index (prune_and_rewrite s).1 uid).isSome = true ∧
    (get_status s uid).1.pending =
      ((((get_pending_queue s).takeWhile
          (fun u => !(u == uid))).filter (keepB s)).length : Int) := by
  have hk : keepB s uid = true := by
    simp [keepB, is_finished, h]
  have hmem : uid ∈ (prune_and_rewrite s).1 := by
    rw [prune_fst]
    exact List.mem_filter.mpr ⟨hm, hk⟩
  have hidx : list_index (prune_and_rewrite s).1 uid =
      some (((get_pending_queue s).takeWhile
        (fun u => !(u == uid))).filter (keepB s)).length := by
    rw [prune_fst]
    exact list_index_filter (keepB s) uid hk (get_pending_queue s) hm
  refine ⟨hmem, by rw [hidx]; rfl, ?_⟩
  simp only [get_status]
  rw [if_neg h, hidx]

theorem present_unfinished_uid_lag_witness :
    "d" ∈ (prune_and_rewrite exState).1 ∧
    (list_index (prune_and_rewrite exState).1 "d").isSome = true ∧
    (get_status exState "d").1.pending =
      ((((get_pending_queue exState).takeWhile
          (fun u => !(u == "d"))).filter (keepB exState)).length : Int) :=
  present_unfinished_uid_lag exState "d" (by decide) (by decide)

/-- C1 (counterexample): with `abc123` finished and still queued, the status
query `get_status("abc123")` observes it as finished yet takes the lag-0
shortcut without touching the queue, so a subsequent queue snapshot still
contains `abc123`. -/
theorem finished_query_leaves_uid_queued :
    (fetch_redis exStateFinishedQueued "abc123").status = Status.finished ∧
    (get_status exStateFinishedQueued "abc123").1.status = Status.finished ∧
    "abc123" ∈ get_pending_queue (get_status exStateFinishedQueued "abc123").2 := by
  decide

/-- C1 (amended): a finished uid is evicted from the Pending Queue by a status
query for a uid whose record is *not* finished: after such a query, no
finished uid remains in the queue snapshot. -/
theorem unfinished_query_purges_finished_uids (s : RedisState) (v u : String)
    (hv : (fetch_redis s v).status ≠ Status.finished)
    (hu : (fetch_redis s u).status = Status.finished) :
    u ∉ get_pending_queue (get_status s v).2 := by
  simp only [get_status]
  rw [if_neg hv]
  show u ∉ get_pending_queue (prune_and_rewrite s).2
  rw [prune_snd_queue, prune_fst]
  intro hmem
  have hk := List.of_mem_filter hmem
  simp [keepB, is_finished, hu] at hk

theorem unfinished_query_purges_finished_uids_witness :
    "a" ∉ get_pending_queue (get_status exState "b").2 :=
  unfinished_query_purges_finished_uids exState "b" "a" (by decide) (by decide)
